import Mathlib

/-!
Verification of the `rustchat` fixed-size thread pool (`src/lib.rs`).

The pool is embedded as a small-step transition system:

* `Job` models `Box<dyn FnOnce() + Send>`: an opaque one-shot callable,
  identified by `jid`; the flag `panics` records whether calling it raises
  an unhandled panic.
* `Worker` models the `Worker` struct: `{ id: usize, thread: Option<JoinHandle> }`;
  the join handle of worker `i` is modelled as the thread index `i`.
* `SysState` holds the pool's fields (`sender`, `workers`), the runtime status
  of every spawned thread (`tstates`), which receiver `Arc` each thread
  closure holds (`trecv`), the channel's pending queue (`queue`), the state
  of the destroying/main thread (`main`), and ghost histories (`submitted`,
  `dequeued`, `executed`, `jpanicked`) that record the observable events
  the spec talks about.
* `Step` is one interleaving step of either the caller thread
  (`ThreadPool::execute`, the statements of `Drop::drop`) or of one worker
  thread's loop body (`receiver.lock().unwrap().recv()` and the `match`).
-/

namespace RustPool

/-- A `Job` (`type Job = Box<dyn FnOnce() + Send + 'static>`): an opaque
one-shot callable.  `panics = true` means calling it raises an unhandled
panic. -/
structure Job where
  jid : Nat
  panics : Bool
deriving DecidableEq, Repr

/-- The ways the embedded code can panic (`assert!`, `Option::unwrap` on
`None`, `Result::unwrap` on `Err`). -/
inductive PanicKind where
  | assertFailed
  | unwrapNone
  | sendFailed
  | joinFailed
deriving DecidableEq, Repr

/-- Runtime status of one spawned worker thread, following the loop body of
`Worker::new`: at the top of the loop (`waiting`), holding the receiver lock
inside `receiver.lock().unwrap().recv()` (`holding`), running a received job
with the lock guard already dropped (`executing j`), exited normally after
`recv` returned `Err` (`terminated`), or unwound after the job panicked
(`panicked`). -/
inductive WStatus where
  | waiting
  | holding
  | executing (j : Job)
  | terminated
  | panicked
deriving DecidableEq, Repr

/-- Whether a thread with this status is still running, i.e. its closure
(and hence its clone of the receiver `Arc`) has not been dropped yet. -/
def WStatus.running : WStatus → Bool
  | .terminated => false
  | .panicked => false
  | _ => true

/-- The `Worker` struct: `{ id: usize, thread: Option<thread::JoinHandle<()>> }`.
The join handle for the thread spawned for worker `i` is modelled by the
index `i`. -/
structure Worker where
  id : Nat
  thread : Option Nat
deriving DecidableEq, Repr

/-- Status of the single caller/destroyer thread: calling methods on a live
pool (`active`), inside `Drop::drop` about to process `workers[k]`
(`dropping k`), finished dropping the pool (`done`), or panicked
(`panicked`). -/
inductive MainStatus where
  | active
  | dropping (k : Nat)
  | done
  | panicked
deriving DecidableEq, Repr

/-- Global state of the embedded program. -/
structure SysState where
  /-- `ThreadPool.sender : Option<mpsc::Sender<Job>>`. -/
  sender : Option Unit
  /-- `ThreadPool.workers : Vec<Worker>`. -/
  workers : List Worker
  /-- Runtime status of spawned thread `i`. -/
  tstates : List WStatus
  /-- Identity of the receiver `Arc` held by the closure of thread `i`
  (all clones of the single `Arc::new(Mutex::new(receiver))`). -/
  trecv : List Nat
  /-- Pending jobs inside the `mpsc` channel, head = next to be received. -/
  queue : List Job
  /-- Ghost: jobs passed to `execute`, in submission order. -/
  submitted : List Job
  /-- Ghost: jobs returned by `recv`, in the order `recv` returned them. -/
  dequeued : List Job
  /-- Ghost: completed job runs, in completion order, paired with the index
  of the worker thread that ran each job. -/
  executed : List (Nat × Job)
  /-- Ghost: jobs whose run raised an unhandled panic. -/
  jpanicked : List Job
  /-- Status of the caller/destroyer thread. -/
  main : MainStatus
deriving DecidableEq, Repr

/-- Jobs currently being executed by a thread with the given status. -/
def jobsOf : WStatus → List Job
  | .executing j => [j]
  | _ => []

/-- Jobs currently being executed by some worker thread. -/
def inFlight (s : SysState) : List Job := s.tstates.flatMap jobsOf

/-- Some spawned thread is still running, hence still holds a clone of the
receiver `Arc`: the channel's receive side is not yet fully dropped. -/
def alive (s : SysState) : Bool := s.tstates.any WStatus.running

/-- Number of worker threads currently holding the receiver `Mutex`. -/
def holderCount (s : SysState) : Nat :=
  s.tstates.countP (fun st => decide (st = .holding))

/-- Replace the status of thread `i`. -/
def setT (s : SysState) (i : Nat) (st : WStatus) : SysState :=
  { s with tstates := s.tstates.set i st }

/-- Effect of a successful `self.sender.as_ref().unwrap().send(job).unwrap()`:
the job goes to the tail of the channel queue (ghost: it is recorded as
submitted). -/
def enqueue (s : SysState) (j : Job) : SysState :=
  { s with queue := s.queue ++ [j], submitted := s.submitted ++ [j] }

/-- State produced by `ThreadPool::new(size)` after the `assert!` passed:
channel created, receiver wrapped in one shared `Arc<Mutex<_>>` (identity
`0`), and `size` workers `Worker { id, thread: Some(handle) }` pushed for
`id in 0..size`, each spawned thread at the top of its loop. -/
def initState (size : Nat) : SysState where
  sender := some ()
  workers := (List.range size).map (fun i => { id := i, thread := some i })
  tstates := List.replicate size .waiting
  trecv := List.replicate size 0
  queue := []
  submitted := []
  dequeued := []
  executed := []
  jpanicked := []
  main := .active

/-- `ThreadPool::new(size)`: `assert!(size > 0)` panics for `size = 0`,
otherwise the pool of `initState size` is returned. -/
def ThreadPool.new (size : Nat) : Except PanicKind SysState :=
  if size = 0 then .error .assertFailed else .ok (initState size)

/-- `ThreadPool::execute`: `self.sender.as_ref().unwrap()` panics if the
sender was already taken; `send(job)` fails (and `.unwrap()` panics) iff
every clone of the receiver `Arc` has been dropped, i.e. no worker thread is
running any more; otherwise the job is appended to the channel queue. -/
def ThreadPool.execute (s : SysState) (j : Job) : Except PanicKind SysState :=
  match s.sender with
  | none => .error .unwrapNone
  | some _ => if alive s then .ok (enqueue s j) else .error .sendFailed

/-- One interleaving step of the system. -/
inductive Step : SysState → SysState → Prop
  /-- The caller invokes `pool.execute(f)` and it returns normally. -/
  | exec (s : SysState) (j : Job) (s' : SysState) (hm : s.main = .active)
      (h : ThreadPool.execute s j = .ok s') : Step s s'
  /-- The caller invokes `pool.execute(f)` and one of the two `unwrap`s
  panics, killing the calling thread. -/
  | execFail (s : SysState) (j : Job) (e : PanicKind) (hm : s.main = .active)
      (h : ThreadPool.execute s j = .error e) :
      Step s { s with main := .panicked }
  /-- Thread `i`, at the top of its loop, acquires the receiver `Mutex`
  (`receiver.lock().unwrap()`); it must wait until no other thread holds it. -/
  | acquire (s : SysState) (i : Nat) (h : s.tstates.get? i = some .waiting)
      (hl : holderCount s = 0) : Step s (setT s i .holding)
  /-- `recv()` returns `Ok(job)` to the lock-holding thread `i`: the head job
  leaves the channel, the `MutexGuard` temporary is dropped, and the `match`
  enters the `Ok` arm, running the job. -/
  | recvJob (s : SysState) (i : Nat) (j : Job) (rest : List Job)
      (h : s.tstates.get? i = some .holding) (hq : s.queue = j :: rest) :
      Step s { setT s i (.executing j) with
               queue := rest, dequeued := s.dequeued ++ [j] }
  /-- `recv()` returns `Err(RecvError)` to the lock-holding thread `i`: the
  channel is empty and the sender has been dropped; the `match` enters the
  `Err` arm and `break`s, the thread exits normally. -/
  | recvClosed (s : SysState) (i : Nat) (h : s.tstates.get? i = some .holding)
      (hq : s.queue = []) (hs : s.sender = none) : Step s (setT s i .terminated)
  /-- `job()` returns normally on thread `i`; the loop continues. -/
  | finish (s : SysState) (i : Nat) (j : Job)
      (h : s.tstates.get? i = some (.executing j)) (hp : j.panics = false) :
      Step s { setT s i .waiting with executed := s.executed ++ [(i, j)] }
  /-- `job()` raises an unhandled panic on thread `i`: the thread unwinds
  and exits; nothing else in the state is touched. -/
  | panicJob (s : SysState) (i : Nat) (j : Job)
      (h : s.tstates.get? i = some (.executing j)) (hp : j.panics = true) :
      Step s { setT s i .panicked with jpanicked := s.jpanicked ++ [j] }
  /-- First statement of `Drop::drop`: `drop(self.sender.take())`. -/
  | beginDrop (s : SysState) (hm : s.main = .active) :
      Step s { s with sender := none, main := .dropping 0 }
  /-- Iteration `k` of the drop loop, `worker.thread.take()` yields a handle
  and `thread.join()` returns `Ok`: the joined thread had exited normally. -/
  | joinOk (s : SysState) (k t : Nat) (w : Worker) (hm : s.main = .dropping k)
      (hw : s.workers.get? k = some w) (ht : w.thread = some t)
      (hterm : s.tstates.get? t = some .terminated) :
      Step s { s with workers := s.workers.set k { w with thread := none },
                      main := .dropping (k + 1) }
  /-- Iteration `k` of the drop loop, the joined thread had panicked:
  `thread.join()` returns `Err` and `.unwrap()` panics the destroying
  thread. -/
  | joinFail (s : SysState) (k t : Nat) (w : Worker) (hm : s.main = .dropping k)
      (hw : s.workers.get? k = some w) (ht : w.thread = some t)
      (hpan : s.tstates.get? t = some .panicked) :
      Step s { s with workers := s.workers.set k { w with thread := none },
                      main := .panicked }
  /-- Iteration `k` of the drop loop with `worker.thread` already `None`:
  the `if let` falls through and the loop continues. -/
  | joinNone (s : SysState) (k : Nat) (w : Worker) (hm : s.main = .dropping k)
      (hw : s.workers.get? k = some w) (ht : w.thread = none) :
      Step s { s with main := .dropping (k + 1) }
  /-- The drop loop has visited every worker: `Drop::drop` returns and the
  pool is gone. -/
  | dropFin (s : SysState) (k : Nat) (hm : s.main = .dropping k)
      (h : s.workers.length ≤ k) : Step s { s with main := .done }

/-- Reachability from a start state by interleaving steps. -/
inductive Reach : SysState → SysState → Prop
  | refl (s : SysState) : Reach s s
  | tail (s t u : SysState) : Reach s t → Step t u → Reach s u

/-! ### List helper lemmas -/

theorem get?_set_cases {α : Type} {l : List α} {i m : Nat} {b c : α}
    (h : (l.set i b).get? m = some c) :
    (m = i ∧ c = b ∧ i < l.length) ∨ (m ≠ i ∧ l.get? m = some c) := by
  by_cases hmi : m = i
  · subst hmi
    have hlt : m < l.length := by
      have := (List.get?_eq_some.mp h).1
      simpa using this
    rw [List.get?_set_eq_of_lt b hlt] at h
    exact Or.inl ⟨rfl, (Option.some.inj h).symm, hlt⟩
  · right
    exact ⟨hmi, by rwa [List.get?_set_ne _ _ (fun hh => hmi hh.symm)] at h⟩

theorem set_get?_mem {α : Type} (l : List α) (i : Nat) (b : α) (h : i < l.length) :
    b ∈ l.set i b :=
  List.get?_mem (List.get?_set_eq_of_lt b h)

theorem any_set_true {α : Type} (l : List α) (p : α → Bool) (i : Nat) (b : α)
    (h : i < l.length) (hb : p b = true) : (l.set i b).any p = true :=
  List.any_eq_true.mpr ⟨b, set_get?_mem l i b h, hb⟩

theorem countP_set_le {α : Type} (p : α → Bool) :
    ∀ (l : List α) (i : Nat) (b : α),
      (l.set i b).countP p ≤ l.countP p + (if p b then 1 else 0)
  | [], _, _ => by simp
  | x :: xs, 0, b => by
      simp only [List.set, List.countP_cons]
      have := countP_set_le p xs 0 b
      by_cases hb : p b <;> by_cases hx : p x <;> simp [hb, hx] <;> omega
  | x :: xs, n + 1, b => by
      simp only [List.set, List.countP_cons]
      have := countP_set_le p xs n b
      by_cases hb : p b <;> by_cases hx : p x <;> simp [hb, hx] at * <;> omega

theorem flatMap_set_ms {α β : Type} (f : α → List β) :
    ∀ (l : List α) (i : Nat) (a b : α), l.get? i = some a →
      (↑((l.set i b).flatMap f) : Multiset β) + ↑(f a) =
        (↑(l.flatMap f) : Multiset β) + ↑(f b)
  | [], i, _, _, h => by simp at h
  | x :: xs, 0, a, b, h => by
      have hx : x = a := by simpa using h
      subst hx
      show ((f b ++ xs.flatMap f : List β) : Multiset β) + ↑(f x) =
        ((f x ++ xs.flatMap f : List β) : Multiset β) + ↑(f b)
      rw [show ((f b ++ xs.flatMap f : List β) : Multiset β) = ↑(f b) + ↑(xs.flatMap f) from rfl,
        show ((f x ++ xs.flatMap f : List β) : Multiset β) = ↑(f x) + ↑(xs.flatMap f) from rfl]
      abel
  | x :: xs, n + 1, a, b, h => by
      have hh : xs.get? n = some a := by simpa using h
      have ih := flatMap_set_ms f xs n a b hh
      show ((f x ++ (xs.set n b).flatMap f : List β) : Multiset β) + ↑(f a) =
        ((f x ++ xs.flatMap f : List β) : Multiset β) + ↑(f b)
      rw [show ((f x ++ (xs.set n b).flatMap f : List β) : Multiset β) =
            ↑(f x) + ↑((xs.set n b).flatMap f) from rfl,
        show ((f x ++ xs.flatMap f : List β) : Multiset β) = ↑(f x) + ↑(xs.flatMap f) from rfl,
        add_assoc, ih]
      abel

theorem len_one_eq {α : Type} {l : List α} {i : Nat} {a : α}
    (hlen : l.length = 1) (h : l.get? i = some a) : i = 0 ∧ l = [a] := by
  match l, hlen with
  | [x], _ =>
    have hi : i = 0 := by
      have := (List.get?_eq_some.mp h).1
      simpa using Nat.lt_one_iff.mp (by simpa using this)
    subst hi
    simp_all

/-! ### The global invariant -/

/-- Invariant satisfied by every state reachable from `initState size`. -/
structure PoolInv (size : Nat) (s : SysState) : Prop where
  /-- The workers vector keeps its original length. -/
  lenW : s.workers.length = size
  /-- One spawned thread per worker. -/
  lenT : s.tstates.length = size
  /-- Every thread closure holds a clone of the one shared receiver `Arc`. -/
  recvShared : s.trecv = List.replicate size 0
  /-- `workers[i]` has id `i`; its handle is the original one or was taken. -/
  wShape : ∀ i w, s.workers.get? i = some w →
    w.id = i ∧ (w.thread = some i ∨ w.thread = none)
  /-- While the pool is active the sender is present and no handle was taken. -/
  activeInv : s.main = .active →
    s.sender = some () ∧ ∀ i w, s.workers.get? i = some w → w.thread = some i
  /-- At iteration `k` of the drop loop: the sender is already dropped,
  exactly the workers below `k` have had their handle taken, and each of
  them was joined, i.e. its thread had exited normally. -/
  dropInv : ∀ k, s.main = .dropping k →
    s.sender = none ∧
    (∀ i w, s.workers.get? i = some w →
      (i < k → w.thread = none) ∧ (k ≤ i → w.thread = some i)) ∧
    (∀ i, i < k → i < size → s.tstates.get? i = some .terminated)
  /-- After `Drop::drop` returned: sender gone, all threads joined after a
  normal exit, all handles taken. -/
  doneInv : s.main = .done →
    s.sender = none ∧ (∀ st ∈ s.tstates, st = .terminated) ∧
    (∀ w ∈ s.workers, w.thread = none)
  /-- A thread exits normally only after the sender was dropped. -/
  termSender : ∀ i, s.tstates.get? i = some .terminated → s.sender = none
  /-- Channel FIFO: what was submitted is what was received, in order,
  followed by what is still queued. -/
  fifo : s.submitted = s.dequeued ++ s.queue
  /-- Every received job is finished, in flight, or panicked its thread. -/
  acct : (↑s.dequeued : Multiset Job) =
    ↑(s.executed.map Prod.snd) + ↑(inFlight s) + ↑s.jpanicked
  /-- Only panicking jobs are recorded as having panicked. -/
  panTrue : ∀ j ∈ s.jpanicked, j.panics = true
  /-- A thread in panicked state means some job panicked. -/
  panWitness : ∀ i, s.tstates.get? i = some .panicked → s.jpanicked ≠ []
  /-- After the sender is dropped, pending jobs can only survive while some
  thread is still running — unless a worker was lost to a panic. -/
  drain : s.sender = none →
    alive s = true ∨ s.queue = [] ∨ s.jpanicked ≠ []
  /-- Mutual exclusion: at most one thread holds the receiver `Mutex`. -/
  lockExcl : holderCount s ≤ 1
  /-- With no threads at all, nothing was ever queued. -/
  noThreads : s.tstates = [] → s.queue = []
  /-- Size-one pool, no panicking job submitted: completions happen in
  dequeue order. -/
  serial1 : s.tstates.length = 1 → (∀ j ∈ s.submitted, j.panics = false) →
    s.dequeued = s.executed.map Prod.snd ++ inFlight s

theorem inFlight_replicate_waiting :
    ∀ n : Nat, (List.replicate n WStatus.waiting).flatMap jobsOf = []
  | 0 => rfl
  | n + 1 => by
      show jobsOf .waiting ++ (List.replicate n WStatus.waiting).flatMap jobsOf = []
      rw [inFlight_replicate_waiting n]; rfl

theorem not_alive_iff (s : SysState) :
    alive s = false ↔ ∀ st ∈ s.tstates, st = .terminated ∨ st = .panicked := by
  rw [alive, List.any_eq_false]
  constructor
  · intro h st hst
    have := h st hst
    cases st <;> simp_all [WStatus.running]
  · intro h st hst
    rcases h st hst with h1 | h1 <;> subst h1 <;> simp [WStatus.running]

theorem inv_init (size : Nat) : PoolInv size (initState size) where
  lenW := by simp [initState]
  lenT := by simp [initState]
  recvShared := rfl
  wShape := by
    intro i w h
    have hi : i < size := by
      have := (List.get?_eq_some.mp h).1
      simpa [initState] using this
    simp only [initState] at h
    rw [List.get?_map, List.get?_range hi] at h
    simp at h
    subst h
    exact ⟨rfl, Or.inl rfl⟩
  activeInv := by
    intro _
    refine ⟨rfl, ?_⟩
    intro i w h
    have hi : i < size := by
      have := (List.get?_eq_some.mp h).1
      simpa [initState] using this
    simp only [initState] at h
    rw [List.get?_map, List.get?_range hi] at h
    simp at h
    subst h
    rfl
  dropInv := by intro k hk; simp [initState] at hk
  doneInv := by intro hk; simp [initState] at hk
  termSender := by
    intro i h
    have hm : WStatus.terminated ∈ List.replicate size WStatus.waiting :=
      List.get?_mem (l := (initState size).tstates) h
    have := List.eq_of_mem_replicate hm
    simp at this
  fifo := rfl
  acct := by
    show (↑([] : List Job) : Multiset Job) =
      ↑(([] : List (Nat × Job)).map Prod.snd) + ↑(inFlight (initState size)) + ↑([] : List Job)
    rw [show inFlight (initState size) = [] from inFlight_replicate_waiting size]
    simp
  panTrue := by intro j h; simp [initState] at h
  panWitness := by
    intro i h
    have hm : WStatus.panicked ∈ List.replicate size WStatus.waiting :=
      List.get?_mem (l := (initState size).tstates) h
    have := List.eq_of_mem_replicate hm
    simp at this
  drain := by intro h; simp [initState] at h
  lockExcl := by
    have : holderCount (initState size) = 0 := by
      rw [holderCount, List.countP_eq_zero]
      intro st hst
      have hst' : st ∈ List.replicate size WStatus.waiting := hst
      have := List.eq_of_mem_replicate hst'
      subst this
      simp
    omega
  noThreads := fun _ => rfl
  serial1 := by
    intro _ _
    show ([] : List Job) = ([] : List (Nat × Job)).map Prod.snd ++ inFlight (initState size)
    rw [show inFlight (initState size) = [] from inFlight_replicate_waiting size]
    rfl

/-- Every job currently being executed was submitted. -/
theorem inFlight_submitted {size : Nat} {s : SysState} (hI : PoolInv size s) :
    ∀ j ∈ inFlight s, j ∈ s.submitted := by
  intro j hj
  have hd : j ∈ (↑s.dequeued : Multiset Job) := by
    rw [hI.acct]
    exact Multiset.mem_add.mpr (Or.inl (Multiset.mem_add.mpr (Or.inr (by simpa using hj))))
  have : j ∈ s.dequeued := by simpa using hd
  rw [hI.fifo]
  exact List.mem_append.mpr (Or.inl this)

/-- Every job recorded as having panicked was submitted. -/
theorem jpanicked_submitted {size : Nat} {s : SysState} (hI : PoolInv size s) :
    ∀ j ∈ s.jpanicked, j ∈ s.submitted := by
  intro j hj
  have hd : j ∈ (↑s.dequeued : Multiset Job) := by
    rw [hI.acct]
    exact Multiset.mem_add.mpr (Or.inr (by simpa using hj))
  have : j ∈ s.dequeued := by simpa using hd
  rw [hI.fifo]
  exact List.mem_append.mpr (Or.inl this)

/-! ### Preservation of the invariant, one lemma per kind of step -/

theorem get?_set_keep_term {l : List WStatus} {i : Nat} {a : WStatus} (b : WStatus)
    (hi : l.get? i = some a) (ha : a ≠ .terminated) :
    ∀ i0, l.get? i0 = some .terminated → (l.set i b).get? i0 = some .terminated := by
  intro i0 h0
  have hne : i ≠ i0 := by
    intro he; subst he; rw [hi] at h0; exact ha (Option.some.inj h0)
  rw [List.get?_set_ne _ _ hne]; exact h0

theorem termSender_set {size : Nat} {s : SysState} (hI : PoolInv size s) {i : Nat}
    {b : WStatus} (hb : b ≠ .terminated) :
    ∀ i0, (s.tstates.set i b).get? i0 = some .terminated → s.sender = none := by
  intro i0 h0
  rcases get?_set_cases h0 with ⟨_, hc, _⟩ | ⟨_, hold⟩
  · exact absurd hc.symm hb
  · exact hI.termSender i0 hold

theorem panWitness_set {size : Nat} {s : SysState} (hI : PoolInv size s) {i : Nat}
    {b : WStatus} (hb : b ≠ .panicked) :
    ∀ i0, (s.tstates.set i b).get? i0 = some .panicked → s.jpanicked ≠ [] := by
  intro i0 h0
  rcases get?_set_cases h0 with ⟨_, hc, _⟩ | ⟨_, hold⟩
  · exact absurd hc.symm hb
  · exact hI.panWitness i0 hold

theorem status_ne_done {size : Nat} {s : SysState} (hI : PoolInv size s) {i : Nat}
    {a : WStatus} (hi : s.tstates.get? i = some a) (hne : a ≠ .terminated) :
    s.main ≠ .done := by
  intro hd
  exact hne ((hI.doneInv hd).2.1 a (List.get?_mem hi))

theorem set_ne_nil {l : List WStatus} {i : Nat} {a : WStatus} (b : WStatus)
    (hi : l.get? i = some a) : l.set i b ≠ [] := by
  intro h
  have h1 : (l.set i b).length = 0 := by rw [h]; rfl
  rw [List.length_set] at h1
  have h2 : l = [] := List.length_eq_zero.mp h1
  subst h2; simp at hi

theorem inv_exec (size : Nat) (s : SysState) (j : Job) (hI : PoolInv size s)
    (halive : alive s = true) :
    PoolInv size (enqueue s j) where
  lenW := hI.lenW
  lenT := hI.lenT
  recvShared := hI.recvShared
  wShape := hI.wShape
  activeInv := hI.activeInv
  dropInv := hI.dropInv
  doneInv := hI.doneInv
  termSender := hI.termSender
  fifo := by
    show s.submitted ++ [j] = s.dequeued ++ (s.queue ++ [j])
    rw [hI.fifo, List.append_assoc]
  acct := hI.acct
  panTrue := hI.panTrue
  panWitness := hI.panWitness
  drain := fun _ => Or.inl halive
  lockExcl := hI.lockExcl
  noThreads := by
    intro hnil
    have : alive s = false := by
      rw [alive, show s.tstates = [] from hnil]
      rfl
    rw [this] at halive
    simp at halive
  serial1 := by
    intro h1 hnp
    have hnp' : ∀ j' ∈ s.submitted, j'.panics = false := by
      intro j' hj'
      exact hnp j' (List.mem_append.mpr (Or.inl hj'))
    exact hI.serial1 h1 hnp'

theorem inv_acquire (size : Nat) (s : SysState) (i : Nat) (hI : PoolInv size s)
    (h : s.tstates.get? i = some .waiting) (hl : holderCount s = 0) :
    PoolInv size (setT s i .holding) where
  lenW := hI.lenW
  lenT := by
    show (s.tstates.set i .holding).length = size
    rw [List.length_set]; exact hI.lenT
  recvShared := hI.recvShared
  wShape := hI.wShape
  activeInv := hI.activeInv
  dropInv := by
    intro k hk
    obtain ⟨h1, h2, h3⟩ := hI.dropInv k hk
    exact ⟨h1, h2, fun i0 hik his =>
      get?_set_keep_term _ h (by simp) i0 (h3 i0 hik his)⟩
  doneInv := by
    intro hd
    exact absurd (show s.main = .done from hd) (status_ne_done hI h (by simp))
  termSender := termSender_set hI (by simp)
  fifo := hI.fifo
  acct := by
    have hms : (↑((s.tstates.set i .holding).flatMap jobsOf) : Multiset Job) =
        ↑(s.tstates.flatMap jobsOf) := by
      have := flatMap_set_ms jobsOf s.tstates i .waiting .holding h
      simpa [jobsOf] using this
    show (↑s.dequeued : Multiset Job) = ↑(s.executed.map Prod.snd) +
      ↑((s.tstates.set i .holding).flatMap jobsOf) + ↑s.jpanicked
    rw [hms]
    exact hI.acct
  panTrue := hI.panTrue
  panWitness := panWitness_set hI (by simp)
  drain := by
    intro _
    refine Or.inl ?_
    show (s.tstates.set i .holding).any WStatus.running = true
    exact any_set_true _ _ _ _ (by
      have := (List.get?_eq_some.mp h).1
      simpa using this) rfl
  lockExcl := by
    have hle := countP_set_le (fun st => decide (st = WStatus.holding)) s.tstates i .holding
    show (s.tstates.set i .holding).countP (fun st => decide (st = WStatus.holding)) ≤ 1
    rw [holderCount] at hl
    rw [hl] at hle
    simpa using hle
  noThreads := by
    intro hnil
    exact absurd hnil (set_ne_nil _ h)
  serial1 := by
    intro h1 hnp
    have h1' : s.tstates.length = 1 := by
      rwa [show (setT s i .holding).tstates = s.tstates.set i .holding from rfl,
        List.length_set] at h1
    obtain ⟨hi0, hts⟩ := len_one_eq h1' h
    subst hi0
    have ih := hI.serial1 h1' hnp
    show s.dequeued = s.executed.map Prod.snd ++ (s.tstates.set 0 .holding).flatMap jobsOf
    rw [hts]
    rw [inFlight, hts] at ih
    simpa [jobsOf] using ih

theorem inv_recvJob (size : Nat) (s : SysState) (i : Nat) (j : Job) (rest : List Job)
    (hI : PoolInv size s) (h : s.tstates.get? i = some .holding)
    (hq : s.queue = j :: rest) :
    PoolInv size { setT s i (.executing j) with
                   queue := rest, dequeued := s.dequeued ++ [j] } where
  lenW := hI.lenW
  lenT := by
    show (s.tstates.set i (.executing j)).length = size
    rw [List.length_set]; exact hI.lenT
  recvShared := hI.recvShared
  wShape := hI.wShape
  activeInv := hI.activeInv
  dropInv := by
    intro k hk
    obtain ⟨h1, h2, h3⟩ := hI.dropInv k hk
    exact ⟨h1, h2, fun i0 hik his =>
      get?_set_keep_term _ h (by simp) i0 (h3 i0 hik his)⟩
  doneInv := by
    intro hd
    exact absurd (show s.main = .done from hd) (status_ne_done hI h (by simp))
  termSender := termSender_set hI (by simp)
  fifo := by
    show s.submitted = (s.dequeued ++ [j]) ++ rest
    rw [hI.fifo, hq, List.append_assoc]
    rfl
  acct := by
    have hms := flatMap_set_ms jobsOf s.tstates i .holding (.executing j) h
    rw [show jobsOf .holding = [] from rfl, show jobsOf (.executing j) = [j] from rfl,
      show ((↑([] : List Job)) : Multiset Job) = 0 from rfl, add_zero] at hms
    show (↑(s.dequeued ++ [j]) : Multiset Job) = ↑(s.executed.map Prod.snd) +
      ↑((s.tstates.set i (.executing j)).flatMap jobsOf) + ↑s.jpanicked
    rw [show ((↑(s.dequeued ++ [j]) : Multiset Job)) = ↑s.dequeued + ↑[j] from rfl, hms,
      show ((↑s.dequeued : Multiset Job)) =
        ↑(s.executed.map Prod.snd) + ↑(s.tstates.flatMap jobsOf) + ↑s.jpanicked from hI.acct]
    abel
  panTrue := hI.panTrue
  panWitness := panWitness_set hI (by simp)
  drain := by
    intro _
    refine Or.inl ?_
    show (s.tstates.set i (.executing j)).any WStatus.running = true
    exact any_set_true _ _ _ _ (by
      have := (List.get?_eq_some.mp h).1
      simpa using this) rfl
  lockExcl := by
    have hle := countP_set_le (fun st => decide (st = WStatus.holding)) s.tstates i
      (.executing j)
    have h2 := hI.lockExcl
    rw [holderCount] at h2
    show (s.tstates.set i (.executing j)).countP
      (fun st => decide (st = WStatus.holding)) ≤ 1
    simp at hle
    omega
  noThreads := by
    intro hnil
    exact absurd hnil (set_ne_nil _ h)
  serial1 := by
    intro h1 hnp
    have h1' : s.tstates.length = 1 := by simpa [setT] using h1
    obtain ⟨hi0, hts⟩ := len_one_eq h1' h
    subst hi0
    have ih := hI.serial1 h1' hnp
    rw [inFlight, hts] at ih
    simp [jobsOf] at ih
    show s.dequeued ++ [j] = s.executed.map Prod.snd ++
      (s.tstates.set 0 (.executing j)).flatMap jobsOf
    rw [hts]
    simp [jobsOf, ih]

theorem inv_recvClosed (size : Nat) (s : SysState) (i : Nat)
    (hI : PoolInv size s) (h : s.tstates.get? i = some .holding)
    (hq : s.queue = []) (hs : s.sender = none) :
    PoolInv size (setT s i .terminated) where
  lenW := hI.lenW
  lenT := by
    show (s.tstates.set i .terminated).length = size
    rw [List.length_set]; exact hI.lenT
  recvShared := hI.recvShared
  wShape := hI.wShape
  activeInv := by
    intro ha
    have h2 := (hI.activeInv ha).1
    rw [hs] at h2
    exact absurd h2 (by simp)
  dropInv := by
    intro k hk
    obtain ⟨h1, h2, h3⟩ := hI.dropInv k hk
    exact ⟨h1, h2, fun i0 hik his =>
      get?_set_keep_term _ h (by simp) i0 (h3 i0 hik his)⟩
  doneInv := by
    intro hd
    exact absurd (show s.main = .done from hd) (status_ne_done hI h (by simp))
  termSender := fun _ _ => hs
  fifo := hI.fifo
  acct := by
    have hms := flatMap_set_ms jobsOf s.tstates i .holding .terminated h
    rw [show jobsOf .holding = [] from rfl, show jobsOf .terminated = [] from rfl,
      show ((↑([] : List Job)) : Multiset Job) = 0 from rfl, add_zero, add_zero] at hms
    show (↑s.dequeued : Multiset Job) = ↑(s.executed.map Prod.snd) +
      ↑((s.tstates.set i .terminated).flatMap jobsOf) + ↑s.jpanicked
    rw [hms]
    exact hI.acct
  panTrue := hI.panTrue
  panWitness := panWitness_set hI (by simp)
  drain := fun _ => Or.inr (Or.inl hq)
  lockExcl := by
    have hle := countP_set_le (fun st => decide (st = WStatus.holding)) s.tstates i
      .terminated
    have h2 := hI.lockExcl
    rw [holderCount] at h2
    show (s.tstates.set i .terminated).countP
      (fun st => decide (st = WStatus.holding)) ≤ 1
    simp at hle
    omega
  noThreads := by
    intro hnil
    exact absurd hnil (set_ne_nil _ h)
  serial1 := by
    intro h1 hnp
    have h1' : s.tstates.length = 1 := by simpa [setT] using h1
    obtain ⟨hi0, hts⟩ := len_one_eq h1' h
    subst hi0
    have ih := hI.serial1 h1' hnp
    rw [inFlight, hts] at ih
    simp [jobsOf] at ih
    show s.dequeued = s.executed.map Prod.snd ++
      (s.tstates.set 0 .terminated).flatMap jobsOf
    rw [hts]
    simp [jobsOf, ih]

theorem inv_finish (size : Nat) (s : SysState) (i : Nat) (j : Job)
    (hI : PoolInv size s) (h : s.tstates.get? i = some (.executing j)) :
    PoolInv size { setT s i .waiting with executed := s.executed ++ [(i, j)] } where
  lenW := hI.lenW
  lenT := by
    show (s.tstates.set i .waiting).length = size
    rw [List.length_set]; exact hI.lenT
  recvShared := hI.recvShared
  wShape := hI.wShape
  activeInv := hI.activeInv
  dropInv := by
    intro k hk
    obtain ⟨h1, h2, h3⟩ := hI.dropInv k hk
    exact ⟨h1, h2, fun i0 hik his =>
      get?_set_keep_term _ h (by simp) i0 (h3 i0 hik his)⟩
  doneInv := by
    intro hd
    exact absurd (show s.main = .done from hd) (status_ne_done hI h (by simp))
  termSender := termSender_set hI (by simp)
  fifo := hI.fifo
  acct := by
    have hms := flatMap_set_ms jobsOf s.tstates i (.executing j) .waiting h
    rw [show jobsOf (.executing j) = [j] from rfl, show jobsOf .waiting = [] from rfl,
      show ((↑([] : List Job)) : Multiset Job) = 0 from rfl, add_zero] at hms
    show (↑s.dequeued : Multiset Job) = ↑((s.executed ++ [(i, j)]).map Prod.snd) +
      ↑((s.tstates.set i .waiting).flatMap jobsOf) + ↑s.jpanicked
    rw [List.map_append,
      show ((↑(s.executed.map Prod.snd ++ [(i, j)].map Prod.snd)) : Multiset Job) =
        ↑(s.executed.map Prod.snd) + ↑([(i, j)].map Prod.snd) from rfl,
      show (([(i, j)].map Prod.snd)) = [j] from rfl,
      show ((↑s.dequeued : Multiset Job)) =
        ↑(s.executed.map Prod.snd) + ↑(s.tstates.flatMap jobsOf) + ↑s.jpanicked from hI.acct,
      ← hms]
    abel
  panTrue := hI.panTrue
  panWitness := panWitness_set hI (by simp)
  drain := by
    intro _
    refine Or.inl ?_
    show (s.tstates.set i .waiting).any WStatus.running = true
    exact any_set_true _ _ _ _ (by
      have := (List.get?_eq_some.mp h).1
      simpa using this) rfl
  lockExcl := by
    have hle := countP_set_le (fun st => decide (st = WStatus.holding)) s.tstates i
      .waiting
    have h2 := hI.lockExcl
    rw [holderCount] at h2
    show (s.tstates.set i .waiting).countP
      (fun st => decide (st = WStatus.holding)) ≤ 1
    simp at hle
    omega
  noThreads := by
    intro hnil
    exact absurd hnil (set_ne_nil _ h)
  serial1 := by
    intro h1 hnp
    have h1' : s.tstates.length = 1 := by simpa [setT] using h1
    obtain ⟨hi0, hts⟩ := len_one_eq h1' h
    subst hi0
    have ih := hI.serial1 h1' hnp
    rw [inFlight, hts] at ih
    simp [jobsOf] at ih
    dsimp only [setT, inFlight]
    rw [hts, List.map_append]
    simp [jobsOf, ih]

theorem inv_panicJob (size : Nat) (s : SysState) (i : Nat) (j : Job)
    (hI : PoolInv size s) (h : s.tstates.get? i = some (.executing j))
    (hp : j.panics = true) :
    PoolInv size { setT s i .panicked with jpanicked := s.jpanicked ++ [j] } where
  lenW := hI.lenW
  lenT := by
    show (s.tstates.set i .panicked).length = size
    rw [List.length_set]; exact hI.lenT
  recvShared := hI.recvShared
  wShape := hI.wShape
  activeInv := hI.activeInv
  dropInv := by
    intro k hk
    obtain ⟨h1, h2, h3⟩ := hI.dropInv k hk
    exact ⟨h1, h2, fun i0 hik his =>
      get?_set_keep_term _ h (by simp) i0 (h3 i0 hik his)⟩
  doneInv := by
    intro hd
    exact absurd (show s.main = .done from hd) (status_ne_done hI h (by simp))
  termSender := termSender_set hI (by simp)
  fifo := hI.fifo
  acct := by
    have hms := flatMap_set_ms jobsOf s.tstates i (.executing j) .panicked h
    rw [show jobsOf (.executing j) = [j] from rfl, show jobsOf .panicked = [] from rfl,
      show ((↑([] : List Job)) : Multiset Job) = 0 from rfl, add_zero] at hms
    show (↑s.dequeued : Multiset Job) = ↑(s.executed.map Prod.snd) +
      ↑((s.tstates.set i .panicked).flatMap jobsOf) + ↑(s.jpanicked ++ [j])
    rw [show ((↑(s.jpanicked ++ [j]) : Multiset Job)) = ↑s.jpanicked + ↑[j] from rfl,
      show ((↑s.dequeued : Multiset Job)) =
        ↑(s.executed.map Prod.snd) + ↑(s.tstates.flatMap jobsOf) + ↑s.jpanicked from hI.acct,
      ← hms]
    abel
  panTrue := by
    intro j0 h0
    rcases List.mem_append.mp h0 with h1 | h1
    · exact hI.panTrue j0 h1
    · rw [List.mem_singleton.mp h1]
      exact hp
  panWitness := fun _ _ => by simp
  drain := fun _ => Or.inr (Or.inr (by simp))
  lockExcl := by
    have hle := countP_set_le (fun st => decide (st = WStatus.holding)) s.tstates i
      .panicked
    have h2 := hI.lockExcl
    rw [holderCount] at h2
    show (s.tstates.set i .panicked).countP
      (fun st => decide (st = WStatus.holding)) ≤ 1
    simp at hle
    omega
  noThreads := by
    intro hnil
    exact absurd hnil (set_ne_nil _ h)
  serial1 := by
    intro _ hnp
    have hj : j ∈ inFlight s := by
      rw [inFlight, List.mem_flatMap]
      exact ⟨.executing j, List.get?_mem h, by simp [jobsOf]⟩
    have h2 := hnp j (inFlight_submitted hI j hj)
    rw [h2] at hp
    simp at hp

theorem inv_execFail (size : Nat) (s : SysState) (hI : PoolInv size s) :
    PoolInv size { s with main := .panicked } where
  lenW := hI.lenW
  lenT := hI.lenT
  recvShared := hI.recvShared
  wShape := hI.wShape
  activeInv := by intro h; simp at h
  dropInv := by intro k h; simp at h
  doneInv := by intro h; simp at h
  termSender := hI.termSender
  fifo := hI.fifo
  acct := hI.acct
  panTrue := hI.panTrue
  panWitness := hI.panWitness
  drain := hI.drain
  lockExcl := hI.lockExcl
  noThreads := hI.noThreads
  serial1 := hI.serial1

theorem inv_beginDrop (size : Nat) (s : SysState) (hI : PoolInv size s)
    (hm : s.main = .active) :
    PoolInv size { s with sender := none, main := .dropping 0 } where
  lenW := hI.lenW
  lenT := hI.lenT
  recvShared := hI.recvShared
  wShape := hI.wShape
  activeInv := by intro h; simp at h
  dropInv := by
    intro k h
    have hk : k = 0 := by
      have h' : MainStatus.dropping 0 = MainStatus.dropping k := h
      injection h' with h0
      omega
    subst hk
    refine ⟨rfl, ?_, ?_⟩
    · intro i w hw
      exact ⟨fun hik => absurd hik (by omega), fun _ => (hI.activeInv hm).2 i w hw⟩
    · intro i hik
      exact absurd hik (by omega)
  doneInv := by intro h; simp at h
  termSender := fun _ _ => rfl
  fifo := hI.fifo
  acct := hI.acct
  panTrue := hI.panTrue
  panWitness := hI.panWitness
  drain := by
    intro _
    by_cases ha : alive s = true
    · exact Or.inl ha
    · have hall := (not_alive_iff s).mp (by simpa using ha)
      by_cases hnil : s.tstates = []
      · exact Or.inr (Or.inl (hI.noThreads hnil))
      · obtain ⟨st, hst⟩ := List.exists_mem_of_ne_nil s.tstates hnil
        rcases hall st hst with h1 | h1
        · subst h1
          obtain ⟨i, hi⟩ := List.get?_of_mem hst
          have := hI.termSender i hi
          rw [(hI.activeInv hm).1] at this
          simp at this
        · subst h1
          obtain ⟨i, hi⟩ := List.get?_of_mem hst
          exact Or.inr (Or.inr (hI.panWitness i hi))
  lockExcl := hI.lockExcl
  noThreads := hI.noThreads
  serial1 := hI.serial1

theorem inv_joinOk (size : Nat) (s : SysState) (k t : Nat) (w : Worker)
    (hI : PoolInv size s) (hm : s.main = .dropping k)
    (hw : s.workers.get? k = some w) (ht : w.thread = some t)
    (hterm : s.tstates.get? t = some .terminated) :
    PoolInv size { s with workers := s.workers.set k { w with thread := none },
                          main := .dropping (k + 1) } where
  lenW := by
    show (s.workers.set k _).length = size
    rw [List.length_set]; exact hI.lenW
  lenT := hI.lenT
  recvShared := hI.recvShared
  wShape := by
    intro i w' hw'
    rcases get?_set_cases hw' with ⟨hik, hww, _⟩ | ⟨_, hold⟩
    · subst hik hww
      exact ⟨(hI.wShape i w hw).1, Or.inr rfl⟩
    · exact hI.wShape i w' hold
  activeInv := by intro h; simp at h
  dropInv := by
    intro k' h
    have hk' : k' = k + 1 := by
      have : MainStatus.dropping (k + 1) = MainStatus.dropping k' := h
      injection this with h0
      omega
    subst hk'
    have hd := hI.dropInv k hm
    refine ⟨hd.1, ?_, ?_⟩
    · intro i w' hw'
      rcases get?_set_cases hw' with ⟨hik, hww, _⟩ | ⟨hik, hold⟩
      · subst hik hww
        exact ⟨fun _ => rfl, fun hle => by omega⟩
      · refine ⟨fun hik1 => ?_, fun hle => ((hd.2.1 i w' hold).2 (by omega))⟩
        have : i < k := by omega
        exact (hd.2.1 i w' hold).1 this
    · intro i hik hisize
      by_cases hik2 : i < k
      · exact hd.2.2 i hik2 hisize
      · have : i = k := by omega
        subst this
        have hwk : w.thread = some i ∨ w.thread = none := (hI.wShape i w hw).2
        rcases hwk with h1 | h1
        · rw [ht] at h1
          have : t = i := by injection h1
          rwa [this] at hterm
        · rw [ht] at h1; simp at h1
  doneInv := by intro h; simp at h
  termSender := hI.termSender
  fifo := hI.fifo
  acct := hI.acct
  panTrue := hI.panTrue
  panWitness := hI.panWitness
  drain := hI.drain
  lockExcl := hI.lockExcl
  noThreads := hI.noThreads
  serial1 := hI.serial1

theorem inv_joinFail (size : Nat) (s : SysState) (k : Nat) (w : Worker)
    (hI : PoolInv size s) (hw : s.workers.get? k = some w) :
    PoolInv size { s with workers := s.workers.set k { w with thread := none },
                          main := .panicked } where
  lenW := by
    show (s.workers.set k _).length = size
    rw [List.length_set]; exact hI.lenW
  lenT := hI.lenT
  recvShared := hI.recvShared
  wShape := by
    intro i w' hw'
    rcases get?_set_cases hw' with ⟨hik, hww, _⟩ | ⟨_, hold⟩
    · subst hik hww
      exact ⟨(hI.wShape i w hw).1, Or.inr rfl⟩
    · exact hI.wShape i w' hold
  activeInv := by intro h; simp at h
  dropInv := by intro k' h; simp at h
  doneInv := by intro h; simp at h
  termSender := hI.termSender
  fifo := hI.fifo
  acct := hI.acct
  panTrue := hI.panTrue
  panWitness := hI.panWitness
  drain := hI.drain
  lockExcl := hI.lockExcl
  noThreads := hI.noThreads
  serial1 := hI.serial1

theorem inv_dropFin (size : Nat) (s : SysState) (k : Nat) (hI : PoolInv size s)
    (hm : s.main = .dropping k) (h : s.workers.length ≤ k) :
    PoolInv size { s with main := .done } where
  lenW := hI.lenW
  lenT := hI.lenT
  recvShared := hI.recvShared
  wShape := hI.wShape
  activeInv := by intro h; simp at h
  dropInv := by intro k' h; simp at h
  doneInv := by
    intro _
    have hd := hI.dropInv k hm
    have hsk : size ≤ k := hI.lenW ▸ h
    refine ⟨hd.1, ?_, ?_⟩
    · intro st hst
      obtain ⟨i, hi⟩ := List.get?_of_mem hst
      have hisize : i < size := by
        have := (List.get?_eq_some.mp hi).1
        rwa [hI.lenT] at this
      have := hd.2.2 i (by omega) hisize
      rw [hi] at this
      exact Option.some.inj this
    · intro w hw
      obtain ⟨i, hi⟩ := List.get?_of_mem hw
      have hisize : i < size := by
        have := (List.get?_eq_some.mp hi).1
        rw [hI.lenW] at this
        exact this
      exact (hd.2.1 i w hi).1 (by omega)
  termSender := hI.termSender
  fifo := hI.fifo
  acct := hI.acct
  panTrue := hI.panTrue
  panWitness := hI.panWitness
  drain := hI.drain
  lockExcl := hI.lockExcl
  noThreads := hI.noThreads
  serial1 := hI.serial1

theorem inv_step {size : Nat} {s s' : SysState} (hI : PoolInv size s)
    (hstep : Step s s') : PoolInv size s' := by
  cases hstep with
  | exec j _ hm h =>
      by_cases halive : alive s = true
      · cases hse : s.sender with
        | none => simp [ThreadPool.execute, hse] at h
        | some u =>
            simp [ThreadPool.execute, hse, halive] at h
            rw [← h]
            exact inv_exec size s j hI halive
      · cases hse : s.sender with
        | none => simp [ThreadPool.execute, hse] at h
        | some u => simp [ThreadPool.execute, hse, halive] at h
  | execFail j e hm h => exact inv_execFail size s hI
  | acquire i h hl => exact inv_acquire size s i hI h hl
  | recvJob i j rest h hq => exact inv_recvJob size s i j rest hI h hq
  | recvClosed i h hq hs => exact inv_recvClosed size s i hI h hq hs
  | finish i j h hp => exact inv_finish size s i j hI h
  | panicJob i j h hp => exact inv_panicJob size s i j hI h hp
  | beginDrop hm => exact inv_beginDrop size s hI hm
  | joinOk k t w hm hw ht hterm => exact inv_joinOk size s k t w hI hm hw ht hterm
  | joinFail k t w hm hw ht hpan => exact inv_joinFail size s k w hI hw
  | joinNone k w hm hw ht =>
      have hd := hI.dropInv k hm
      have h2 := (hd.2.1 k w hw).2 (le_refl k)
      rw [ht] at h2
      simp at h2
  | dropFin k hm h => exact inv_dropFin size s k hI hm h

/-- Every state reachable from a freshly constructed pool satisfies the
invariant. -/
theorem inv_reach {size : Nat} {s : SysState} (hr : Reach (initState size) s) :
    PoolInv size s := by
  induction hr with
  | refl => exact inv_init size
  | tail t u h1 h2 ih => exact inv_step ih h2

/-! ### Concrete executions used to witness the theorems

`t0 … t9`: a size-one pool runs one well-behaved job to completion and is
then dropped.  `u1 … u6`: a size-one pool runs one job that panics; the
worker thread dies, and dropping the pool panics the destroying thread when
it joins the dead worker. -/

/-- A job that runs normally. -/
def ja : Job := { jid := 0, panics := false }

/-- A job whose execution raises an unhandled panic. -/
def jb : Job := { jid := 1, panics := true }

/-- A third job, used to probe `execute` on a pool with no live worker. -/
def jc : Job := { jid := 2, panics := false }

def t0 : SysState := initState 1
def t1 : SysState := enqueue t0 ja
def t2 : SysState := setT t1 0 .holding
def t3 : SysState :=
  { setT t2 0 (.executing ja) with queue := [], dequeued := t2.dequeued ++ [ja] }
def t4 : SysState := { setT t3 0 .waiting with executed := t3.executed ++ [(0, ja)] }
def t5 : SysState := { t4 with sender := none, main := .dropping 0 }
def t6 : SysState := setT t5 0 .holding
def t7 : SysState := setT t6 0 .terminated
def t8 : SysState :=
  { t7 with workers := t7.workers.set 0 { ({ id := 0, thread := some 0 } : Worker) with
      thread := none }, main := .dropping 1 }
def t9 : SysState := { t8 with main := .done }

theorem reach_t2 : Reach (initState 1) t2 :=
  .tail _ _ _ (.tail _ _ _ (.refl t0) (Step.exec t0 ja t1 rfl rfl))
    (Step.acquire t1 0 rfl rfl)

theorem reach_t9 : Reach (initState 1) t9 :=
  .tail _ _ _ (.tail _ _ _ (.tail _ _ _ (.tail _ _ _ (.tail _ _ _ (.tail _ _ _
    (.tail _ _ _ reach_t2
      (Step.recvJob t2 0 ja [] rfl rfl))
    (Step.finish t3 0 ja rfl rfl))
    (Step.beginDrop t4 rfl))
    (Step.acquire t5 0 rfl rfl))
    (Step.recvClosed t6 0 rfl rfl rfl))
    (Step.joinOk t7 0 0 { id := 0, thread := some 0 } rfl rfl rfl rfl))
    (Step.dropFin t8 1 rfl (by decide))

def u1 : SysState := enqueue (initState 1) jb
def u2 : SysState := setT u1 0 .holding
def u3 : SysState :=
  { setT u2 0 (.executing jb) with queue := [], dequeued := u2.dequeued ++ [jb] }
def u4 : SysState := { setT u3 0 .panicked with jpanicked := u3.jpanicked ++ [jb] }
def u5 : SysState := { u4 with sender := none, main := .dropping 0 }
def u6 : SysState :=
  { u5 with workers := u5.workers.set 0 { ({ id := 0, thread := some 0 } : Worker) with
      thread := none }, main := .panicked }

theorem reach_u4 : Reach (initState 1) u4 :=
  .tail _ _ _ (.tail _ _ _ (.tail _ _ _ (.tail _ _ _ (.refl (initState 1))
    (Step.exec (initState 1) jb u1 rfl rfl))
    (Step.acquire u1 0 rfl rfl))
    (Step.recvJob u2 0 jb [] rfl rfl))
    (Step.panicJob u3 0 jb rfl rfl)

theorem reach_u5 : Reach (initState 1) u5 :=
  .tail _ _ _ reach_u4 (Step.beginDrop u4 rfl)

theorem flatMap_nil_of_all {α β : Type} (f : α → List β) :
    ∀ l : List α, (∀ a ∈ l, f a = []) → l.flatMap f = []
  | [], _ => rfl
  | x :: xs, h => by
      show f x ++ xs.flatMap f = []
      rw [h x (by simp), flatMap_nil_of_all f xs (fun a ha => h a (by simp [ha]))]
      rfl

/-! ### The claims -/

/-- C1: for every sequence of jobs submitted before shutdown begins, once the
pool has been fully dropped (`main = .done`) and assuming no submitted job
panics, the multiset of completed job runs equals the multiset of submitted
jobs — every job was executed, none twice; each completion record names the
single worker thread that ran the job, so if the submitted jobs are distinct
each is executed by exactly one worker, exactly once. -/
theorem c1_jobs_executed_exactly_once (size : Nat) (s : SysState)
    (hr : Reach (initState size) s) (hd : s.main = .done)
    (hnp : ∀ j ∈ s.submitted, j.panics = false) :
    (↑(s.executed.map Prod.snd) : Multiset Job) = ↑s.submitted ∧
    (s.submitted.Nodup → ∀ j ∈ s.submitted,
      (s.executed.map Prod.snd).count j = 1) := by
  have hI := inv_reach hr
  obtain ⟨hsn, hterm, _⟩ := hI.doneInv hd
  have hif : inFlight s = [] :=
    flatMap_nil_of_all jobsOf s.tstates (fun a ha => by rw [hterm a ha]; rfl)
  have hjp : s.jpanicked = [] := by
    cases hjq : s.jpanicked with
    | nil => rfl
    | cons j js =>
        have hjmem : j ∈ s.jpanicked := by rw [hjq]; simp
        have h1 := hI.panTrue j hjmem
        have h2 := hnp j (jpanicked_submitted hI j hjmem)
        rw [h2] at h1
        simp at h1
  have hal : alive s = false :=
    (not_alive_iff s).mpr (fun st hst => Or.inl (hterm st hst))
  have hq : s.queue = [] := by
    rcases hI.drain hsn with h1 | h1 | h1
    · rw [hal] at h1; simp at h1
    · exact h1
    · exact absurd hjp h1
  have hsd : s.submitted = s.dequeued := by
    rw [hI.fifo, hq, List.append_nil]
  have hms : (↑(s.executed.map Prod.snd) : Multiset Job) = ↑s.dequeued := by
    have h3 := hI.acct
    rw [hif, hjp] at h3
    simpa using h3.symm
  have hmain : (↑(s.executed.map Prod.snd) : Multiset Job) = ↑s.submitted := by
    rw [hms, hsd]
  refine ⟨hmain, ?_⟩
  intro hnd j hj
  have hperm : (s.executed.map Prod.snd).Perm s.submitted :=
    Multiset.coe_eq_coe.mp hmain
  rw [hperm.count_eq]
  exact List.count_eq_one_of_mem hnd hj

/-- C1 witness: a size-one pool that ran one job to completion and was
dropped satisfies the hypotheses and the conclusion of
`c1_jobs_executed_exactly_once`. -/
theorem c1_witness :
    (t9.main = .done ∧ ∀ j ∈ t9.submitted, j.panics = false) ∧
    ((↑(t9.executed.map Prod.snd) : Multiset Job) = ↑t9.submitted ∧
     (t9.submitted.Nodup → ∀ j ∈ t9.submitted,
       (t9.executed.map Prod.snd).count j = 1)) :=
  ⟨⟨by decide, by decide⟩,
    c1_jobs_executed_exactly_once 1 t9 reach_t9 (by decide) (by decide)⟩

/-- C2: `ThreadPool::new(0)` panics (the `assert!` fails, no error value is
returned), and for every positive size construction succeeds. -/
theorem c2_new_zero_panics :
    ThreadPool.new 0 = .error .assertFailed ∧
    ∀ size : Nat, 0 < size → ∃ s, ThreadPool.new size = .ok s := by
  refine ⟨rfl, ?_⟩
  intro size hs
  refine ⟨initState size, ?_⟩
  rw [ThreadPool.new, if_neg (by omega)]

/-- C2 witness: instantiation of the positive-size branch at size `3`. -/
theorem c2_witness : (0 : Nat) < 3 ∧ ∃ s, ThreadPool.new 3 = .ok s :=
  ⟨by decide, c2_new_zero_panics.2 3 (by decide)⟩

/-- C3: for every positive size, `ThreadPool::new(size)` succeeds with
exactly `size` workers, worker `i` carrying id `i` and a live thread handle,
every spawned thread running, and every thread closure holding a clone of
the same single receiver `Arc` (identity `0`). -/
theorem c3_new_size_workers (size : Nat) (s : SysState) (hs : 0 < size)
    (h : ThreadPool.new size = .ok s) :
    s.workers.length = size ∧
    (∀ i, i < size → s.workers.get? i = some { id := i, thread := some i }) ∧
    s.tstates = List.replicate size .waiting ∧
    (∀ st ∈ s.tstates, st.running = true) ∧
    s.trecv = List.replicate size 0 := by
  have hns : s = initState size := by
    rw [ThreadPool.new, if_neg (by omega)] at h
    exact (Except.ok.inj h).symm
  subst hns
  refine ⟨by simp [initState], ?_, rfl, ?_, rfl⟩
  · intro i hi
    show ((List.range size).map fun i => ({ id := i, thread := some i } : Worker)).get? i = _
    rw [List.get?_map, List.get?_range hi]
    rfl
  · intro st hst
    have hst' : st ∈ List.replicate size WStatus.waiting := hst
    rw [List.eq_of_mem_replicate hst']
    rfl

/-- C3 witness: instantiation at size `2`. -/
theorem c3_witness :
    (0 : Nat) < 2 ∧
    ((initState 2).workers.length = 2 ∧
     (∀ i, i < 2 → (initState 2).workers.get? i =
       some { id := i, thread := some i }) ∧
     (initState 2).tstates = List.replicate 2 .waiting ∧
     (∀ st ∈ (initState 2).tstates, st.running = true) ∧
     (initState 2).trecv = List.replicate 2 0) :=
  ⟨by decide, c3_new_size_workers 2 (initState 2) (by decide) rfl⟩

/-- C4: shutdown structure.  While active no handle has been taken; once the
drop loop is at worker `k` the sender has already been dropped (it is
dropped first), exactly the workers with index below `k` have had their
handle taken — so handles are taken in ascending id order, each at most
once — and each of those workers was joined only after its thread exited;
when drop has finished every handle is taken and every thread has exited;
and dropping the sender is irreversible: no step restores it. -/
theorem c4_shutdown_order (size : Nat) (s : SysState)
    (hr : Reach (initState size) s) :
    (s.main = .active → s.sender = some () ∧
      ∀ i w, s.workers.get? i = some w → w.thread = some i) ∧
    (∀ k, s.main = .dropping k → s.sender = none ∧
      (∀ i w, s.workers.get? i = some w → (w.thread = none ↔ i < k)) ∧
      (∀ i, i < k → i < size → s.tstates.get? i = some .terminated)) ∧
    (s.main = .done → s.sender = none ∧ (∀ w ∈ s.workers, w.thread = none) ∧
      ∀ st ∈ s.tstates, st = .terminated) ∧
    (∀ s2, Step s s2 → s.sender = none → s2.sender = none) := by
  have hI := inv_reach hr
  refine ⟨hI.activeInv, ?_, ?_, ?_⟩
  · intro k hk
    obtain ⟨h1, h2, h3⟩ := hI.dropInv k hk
    refine ⟨h1, ?_, h3⟩
    intro i w hw
    constructor
    · intro hn
      by_contra hik
      have h4 := (h2 i w hw).2 (by omega)
      rw [hn] at h4
      simp at h4
    · intro hik
      exact (h2 i w hw).1 hik
  · intro hd
    obtain ⟨h1, h2, h3⟩ := hI.doneInv hd
    exact ⟨h1, h3, h2⟩
  · intro s2 hstep hsn
    cases hstep with
    | exec j _ hm h => simp [ThreadPool.execute, hsn] at h
    | execFail j e hm h => exact hsn
    | acquire i h hl => exact hsn
    | recvJob i j rest h hq => exact hsn
    | recvClosed i h hq hs2 => exact hsn
    | finish i j h hp => exact hsn
    | panicJob i j h hp => exact hsn
    | beginDrop hm => rfl
    | joinOk k t w hm hw ht hterm => exact hsn
    | joinFail k t w hm hw ht hpan => exact hsn
    | joinNone k w hm hw ht => exact hsn
    | dropFin k hm h => exact hsn

/-- C4 witness: instantiation at the fully dropped size-one pool `t9`. -/
theorem c4_witness :
    (t9.main = .active → t9.sender = some () ∧
      ∀ i w, t9.workers.get? i = some w → w.thread = some i) ∧
    (∀ k, t9.main = .dropping k → t9.sender = none ∧
      (∀ i w, t9.workers.get? i = some w → (w.thread = none ↔ i < k)) ∧
      (∀ i, i < k → i < 1 → t9.tstates.get? i = some .terminated)) ∧
    (t9.main = .done → t9.sender = none ∧ (∀ w ∈ t9.workers, w.thread = none) ∧
      ∀ st ∈ t9.tstates, st = .terminated) ∧
    (∀ s2, Step t9 s2 → t9.sender = none → s2.sender = none) :=
  c4_shutdown_order 1 t9 reach_t9

/-- C5: in every reachable state at most one worker thread holds the
receiver lock, and a thread that is executing a job is never one that holds
the lock: the `MutexGuard` produced inside `receiver.lock().unwrap().recv()`
is a temporary that is dropped before the received job runs. -/
theorem c5_lock_exclusion (size : Nat) (s : SysState)
    (hr : Reach (initState size) s) :
    holderCount s ≤ 1 ∧
    (∀ i j, s.tstates.get? i = some (.executing j) →
      s.tstates.get? i ≠ some .holding) := by
  have hI := inv_reach hr
  refine ⟨hI.lockExcl, ?_⟩
  intro i j h
  rw [h]
  simp

/-- C5 witness: instantiation at the reachable state `t2`, in which the
single worker holds the lock. -/
theorem c5_witness :
    holderCount t2 ≤ 1 ∧
    (∀ i j, t2.tstates.get? i = some (.executing j) →
      t2.tstates.get? i ≠ some .holding) :=
  c5_lock_exclusion 1 t2 reach_t2

/-- C9: the channel dequeues jobs in strict FIFO submission order — in every
reachable state the submission history is exactly the dequeue history
followed by the still-pending queue, so a job submitted earlier is dequeued
no later than any job submitted after it; and with a size-one pool (and no
panicking job) the completion log is a prefix of the submission order, i.e.
jobs are executed to completion in exact submission order. -/
theorem c9_fifo_order (size : Nat) (s : SysState)
    (hr : Reach (initState size) s) :
    s.submitted = s.dequeued ++ s.queue ∧
    (size = 1 → (∀ j ∈ s.submitted, j.panics = false) →
      ∃ rest, s.submitted = s.executed.map Prod.snd ++ rest) := by
  have hI := inv_reach hr
  refine ⟨hI.fifo, ?_⟩
  intro h1 hnp
  have hlen : s.tstates.length = 1 := by rw [hI.lenT, h1]
  have hs := hI.serial1 hlen hnp
  exact ⟨inFlight s ++ s.queue, by rw [hI.fifo, hs, List.append_assoc]⟩

/-- C9 witness: instantiation at the completed size-one run `t9`. -/
theorem c9_witness :
    t9.submitted = t9.dequeued ++ t9.queue ∧
    ((1 : Nat) = 1 → (∀ j ∈ t9.submitted, j.panics = false) →
      ∃ rest, t9.submitted = t9.executed.map Prod.snd ++ rest) :=
  c9_fifo_order 1 t9 reach_t9

/-- C10: if the sender is still present (the pool object is alive, shutdown
has not begun) but no worker thread is running any more — e.g. every
worker's job panicked — then all clones of the receiver `Arc` have been
dropped, so `send` returns `Err`, the `.unwrap()` in `execute` panics, and
the calling thread dies. -/
theorem c10_execute_panics_no_workers (s : SysState) (j : Job)
    (hs : s.sender = some ()) (ha : alive s = false) :
    ThreadPool.execute s j = .error .sendFailed ∧
    (s.main = .active → Step s { s with main := .panicked }) := by
  constructor
  · simp [ThreadPool.execute, hs, ha]
  · intro hm
    exact Step.execFail s j .sendFailed hm (by simp [ThreadPool.execute, hs, ha])

/-- C10 witness: the reachable state `u4` (size-one pool whose only worker
died executing a panicking job, pool still active) satisfies the hypotheses,
and `execute` indeed panics there. -/
theorem c10_witness :
    u4.sender = some () ∧ alive u4 = false ∧
    (ThreadPool.execute u4 jc = .error .sendFailed ∧
     (u4.main = .active → Step u4 { u4 with main := .panicked })) :=
  ⟨rfl, by decide, c10_execute_panics_no_workers u4 jc rfl (by decide)⟩

/-- Inversion of a successful `execute`: it only appends the job to the
queue and to the submission history. -/
theorem execute_ok_inv {s s2 : SysState} {j : Job}
    (h : ThreadPool.execute s j = .ok s2) :
    s2.tstates = s.tstates ∧ s2.sender = s.sender ∧ s2.workers = s.workers ∧
    s2.main = s.main ∧ s2.queue = s.queue ++ [j] ∧
    s2.submitted = s.submitted ++ [j] := by
  cases hse : s.sender with
  | none => simp [ThreadPool.execute, hse] at h
  | some u =>
      by_cases ha : alive s = true
      · simp [ThreadPool.execute, hse, ha] at h
        rw [← h]
        exact ⟨rfl, hse.symm ▸ rfl, rfl, rfl, rfl, rfl⟩
      · simp [ThreadPool.execute, hse, ha] at h

/-- C6: the worker loop's transitions.  Over any step of the system, for any
thread: once terminated it stays terminated (termination is final); it
becomes terminated only from inside the lock-holding dequeue, and only on
the closed signal — empty channel with the sender dropped (`recv` returned
`Err`); and it starts executing a job only from inside the dequeue, exactly
when that job is at the head of the queue — after which (by the other
constructors of `Step`) it returns to the top of the loop and continues. -/
theorem c6_worker_loop_transitions (s s' : SysState) (i : Nat)
    (st st' : WStatus) (hstep : Step s s')
    (h : s.tstates.get? i = some st) (h' : s'.tstates.get? i = some st') :
    (st = .terminated → st' = .terminated) ∧
    (st' = .terminated → st ≠ .terminated →
      st = .holding ∧ s.queue = [] ∧ s.sender = none) ∧
    (∀ j, st' = .executing j → st ≠ .executing j →
      st = .holding ∧ ∃ rest, s.queue = j :: rest) := by
  have same : st' = st →
      ((st = .terminated → st' = .terminated) ∧
       (st' = .terminated → st ≠ .terminated →
         st = .holding ∧ s.queue = [] ∧ s.sender = none) ∧
       (∀ j, st' = .executing j → st ≠ .executing j →
         st = .holding ∧ ∃ rest, s.queue = j :: rest)) := by
    intro he
    subst he
    exact ⟨fun hh => hh, fun h2 h3 => absurd h2 h3, fun j h2 h3 => absurd h2 h3⟩
  cases hstep with
  | exec j _ hm heq =>
      have hts := (execute_ok_inv heq).1
      rw [hts, h] at h'
      exact same (Option.some.inj h').symm
  | execFail j e hm heq =>
      have h'' : s.tstates.get? i = some st' := h'
      rw [h] at h''
      exact same (Option.some.inj h'').symm
  | acquire i0 h0 hl =>
      have h'' : (s.tstates.set i0 .holding).get? i = some st' := h'
      rcases get?_set_cases h'' with ⟨hii, hc, _⟩ | ⟨_, hold⟩
      · subst hii
        rw [h] at h0
        have hst : st = .waiting := Option.some.inj h0
        subst hst
        subst hc
        refine ⟨fun hh => ?_, fun hh _ => ?_, fun j hh _ => ?_⟩ <;> simp_all
      · rw [h] at hold
        exact same (Option.some.inj hold).symm
  | recvJob i0 j0 rest h0 hq =>
      have h'' : (s.tstates.set i0 (.executing j0)).get? i = some st' := h'
      rcases get?_set_cases h'' with ⟨hii, hc, _⟩ | ⟨_, hold⟩
      · subst hii
        rw [h] at h0
        have hst : st = .holding := Option.some.inj h0
        subst hst
        subst hc
        refine ⟨fun hh => ?_, fun hh _ => ?_, fun j hj _ => ?_⟩
        · simp at hh
        · simp at hh
        · injection hj with h5
          subst h5
          exact ⟨rfl, rest, hq⟩
      · rw [h] at hold
        exact same (Option.some.inj hold).symm
  | recvClosed i0 h0 hq hs0 =>
      have h'' : (s.tstates.set i0 .terminated).get? i = some st' := h'
      rcases get?_set_cases h'' with ⟨hii, hc, _⟩ | ⟨_, hold⟩
      · subst hii
        rw [h] at h0
        have hst : st = .holding := Option.some.inj h0
        subst hst
        subst hc
        refine ⟨fun hh => ?_, fun _ _ => ⟨rfl, hq, hs0⟩, fun j hj _ => ?_⟩
        · simp at hh
        · simp at hj
      · rw [h] at hold
        exact same (Option.some.inj hold).symm
  | finish i0 j0 h0 hp =>
      have h'' : (s.tstates.set i0 .waiting).get? i = some st' := h'
      rcases get?_set_cases h'' with ⟨hii, hc, _⟩ | ⟨_, hold⟩
      · subst hii
        rw [h] at h0
        have hst : st = .executing j0 := Option.some.inj h0
        subst hst
        subst hc
        refine ⟨fun hh => ?_, fun hh _ => ?_, fun j hj _ => ?_⟩ <;> simp_all
      · rw [h] at hold
        exact same (Option.some.inj hold).symm
  | panicJob i0 j0 h0 hp =>
      have h'' : (s.tstates.set i0 .panicked).get? i = some st' := h'
      rcases get?_set_cases h'' with ⟨hii, hc, _⟩ | ⟨_, hold⟩
      · subst hii
        rw [h] at h0
        have hst : st = .executing j0 := Option.some.inj h0
        subst hst
        subst hc
        refine ⟨fun hh => ?_, fun hh _ => ?_, fun j hj _ => ?_⟩ <;> simp_all
      · rw [h] at hold
        exact same (Option.some.inj hold).symm
  | beginDrop hm =>
      have h'' : s.tstates.get? i = some st' := h'
      rw [h] at h''
      exact same (Option.some.inj h'').symm
  | joinOk k t w hm hw ht hterm =>
      have h'' : s.tstates.get? i = some st' := h'
      rw [h] at h''
      exact same (Option.some.inj h'').symm
  | joinFail k t w hm hw ht hpan =>
      have h'' : s.tstates.get? i = some st' := h'
      rw [h] at h''
      exact same (Option.some.inj h'').symm
  | joinNone k w hm hw ht =>
      have h'' : s.tstates.get? i = some st' := h'
      rw [h] at h''
      exact same (Option.some.inj h'').symm
  | dropFin k hm h2 =>
      have h'' : s.tstates.get? i = some st' := h'
      rw [h] at h''
      exact same (Option.some.inj h'').symm

/-- C6 witness: instantiation at the concrete step `t6 → t7`, where the
single worker receives the closed signal and terminates. -/
theorem c6_witness :
    (WStatus.holding = WStatus.terminated → WStatus.terminated = WStatus.terminated) ∧
    (WStatus.terminated = WStatus.terminated →
      WStatus.holding ≠ WStatus.terminated →
      WStatus.holding = WStatus.holding ∧ t6.queue = [] ∧ t6.sender = none) ∧
    (∀ j, WStatus.terminated = WStatus.executing j →
      WStatus.holding ≠ WStatus.executing j →
      WStatus.holding = WStatus.holding ∧ ∃ rest, t6.queue = j :: rest) :=
  c6_worker_loop_transitions t6 t7 0 .holding .terminated
    (Step.recvClosed t6 0 rfl rfl rfl) rfl rfl

/-- C7 counterexample: the claim says `execute` always succeeds and never
panics whenever the sender is present and shutdown has not begun.  But in
the reachable state `u4` — pool still active, sender present — the only
worker died executing a panicking job, every clone of the receiver `Arc` is
dropped, and `execute` hits the `send(job).unwrap()` panic. -/
theorem c7_counterexample :
    Reach (initState 1) u4 ∧ u4.main = .active ∧ u4.sender = some () ∧
    ThreadPool.execute u4 jc = .error .sendFailed :=
  ⟨reach_u4, by decide, by decide, rfl⟩

/-- C7 (amended): while the pool is active with the sender present and at
least one worker execution unit still running, `execute` succeeds, appends
the job to the tail of the queue, records it as submitted, and does not
panic; and a submission after shutdown has begun (sender taken) is fatal —
the `as_ref().unwrap()` panics — rather than returning an error value. -/
theorem c7_execute_active (s : SysState) (j : Job) (hs : s.sender = some ())
    (ha : alive s = true) :
    ThreadPool.execute s j = .ok (enqueue s j) ∧
    (enqueue s j).queue = s.queue ++ [j] ∧
    (enqueue s j).submitted = s.submitted ++ [j] ∧
    (∀ s2 : SysState, s2.sender = none →
      ThreadPool.execute s2 j = .error .unwrapNone) := by
  refine ⟨?_, rfl, rfl, ?_⟩
  · simp [ThreadPool.execute, hs, ha]
  · intro s2 h2
    simp [ThreadPool.execute, h2]

/-- C7 witness: instantiation at a freshly built size-one pool. -/
theorem c7_witness :
    (initState 1).sender = some () ∧ alive (initState 1) = true ∧
    (ThreadPool.execute (initState 1) ja = .ok (enqueue (initState 1) ja) ∧
     (enqueue (initState 1) ja).queue = (initState 1).queue ++ [ja] ∧
     (enqueue (initState 1) ja).submitted = (initState 1).submitted ++ [ja] ∧
     (∀ s2 : SysState, s2.sender = none →
       ThreadPool.execute s2 ja = .error .unwrapNone)) :=
  ⟨rfl, by decide, c7_execute_active (initState 1) ja rfl (by decide)⟩

/-- C8 counterexample: the claim says no operation on the pool — including
its destruction — surfaces a job panic.  But from the reachable state `u5`
(a job panicked, `Drop::drop` has taken the sender and is at worker 0), the
join of the dead worker returns `Err` and `thread.join().unwrap()` panics
the destroying thread. -/
theorem c8_counterexample :
    Reach (initState 1) u5 ∧ u5.main = .dropping 0 ∧ u5.jpanicked = [jb] ∧
    Step u5 u6 ∧ u6.main = .panicked :=
  ⟨reach_u5, by decide, by decide,
    Step.joinFail u5 0 0 { id := 0, thread := some 0 } rfl rfl rfl rfl,
    by decide⟩

/-- C8 (amended): an unhandled job panic terminates only that worker's
thread while the pool operates — the step that records the panic leaves the
sender, queue, workers vector, main thread and every other thread's status
untouched, and nothing is reported to the pool or the caller; however, when
the pool is destroyed, the drop loop's join of a panicked worker makes the
destroying thread panic, so destruction does surface the failure. -/
theorem c8_job_panic_isolated (s s' : SysState) (i : Nat) (j : Job)
    (hstep : Step s s') (h : s.tstates.get? i = some (.executing j))
    (h' : s'.tstates.get? i = some .panicked) :
    j.panics = true ∧ s'.sender = s.sender ∧ s'.queue = s.queue ∧
    s'.main = s.main ∧ s'.workers = s.workers ∧ s'.submitted = s.submitted ∧
    (∀ i0, i0 ≠ i → s'.tstates.get? i0 = s.tstates.get? i0) ∧
    (∀ s2 k t w, s2.main = .dropping k → s2.workers.get? k = some w →
      w.thread = some t → s2.tstates.get? t = some .panicked →
      ∃ s3, Step s2 s3 ∧ s3.main = .panicked) := by
  have dropPart : ∀ s2 k t w, s2.main = .dropping k →
      s2.workers.get? k = some w → w.thread = some t →
      s2.tstates.get? t = some .panicked →
      ∃ s3, Step s2 s3 ∧ s3.main = .panicked :=
    fun s2 k t w hm hw ht hp => ⟨_, Step.joinFail s2 k t w hm hw ht hp, rfl⟩
  cases hstep with
  | exec j0 _ hm heq =>
      have hts := (execute_ok_inv heq).1
      rw [hts, h] at h'
      simp at h'
  | execFail j0 e hm heq =>
      have h'' : s.tstates.get? i = some .panicked := h'
      rw [h] at h''
      simp at h''
  | acquire i0 h0 hl =>
      have h'' : (s.tstates.set i0 .holding).get? i = some .panicked := h'
      rcases get?_set_cases h'' with ⟨_, hc, _⟩ | ⟨_, hold⟩
      · simp at hc
      · rw [h] at hold
        simp at hold
  | recvJob i0 j0 rest h0 hq =>
      have h'' : (s.tstates.set i0 (.executing j0)).get? i = some .panicked := h'
      rcases get?_set_cases h'' with ⟨_, hc, _⟩ | ⟨_, hold⟩
      · simp at hc
      · rw [h] at hold
        simp at hold
  | recvClosed i0 h0 hq hs0 =>
      have h'' : (s.tstates.set i0 .terminated).get? i = some .panicked := h'
      rcases get?_set_cases h'' with ⟨_, hc, _⟩ | ⟨_, hold⟩
      · simp at hc
      · rw [h] at hold
        simp at hold
  | finish i0 j0 h0 hp =>
      have h'' : (s.tstates.set i0 .waiting).get? i = some .panicked := h'
      rcases get?_set_cases h'' with ⟨_, hc, _⟩ | ⟨_, hold⟩
      · simp at hc
      · rw [h] at hold
        simp at hold
  | panicJob i0 j0 h0 hp =>
      have h'' : (s.tstates.set i0 .panicked).get? i = some .panicked := h'
      rcases get?_set_cases h'' with ⟨hii, _, _⟩ | ⟨_, hold⟩
      · subst hii
        rw [h] at h0
        have h5 : WStatus.executing j = WStatus.executing j0 := Option.some.inj h0
        injection h5 with h6
        subst h6
        refine ⟨hp, rfl, rfl, rfl, rfl, rfl, ?_, dropPart⟩
        intro i1 hne
        exact List.get?_set_ne _ _ (fun hh => hne hh.symm)
      · rw [h] at hold
        simp at hold
  | beginDrop hm =>
      have h'' : s.tstates.get? i = some .panicked := h'
      rw [h] at h''
      simp at h''
  | joinOk k t w hm hw ht hterm =>
      have h'' : s.tstates.get? i = some .panicked := h'
      rw [h] at h''
      simp at h''
  | joinFail k t w hm hw ht hpan =>
      have h'' : s.tstates.get? i = some .panicked := h'
      rw [h] at h''
      simp at h''
  | joinNone k w hm hw ht =>
      have h'' : s.tstates.get? i = some .panicked := h'
      rw [h] at h''
      simp at h''
  | dropFin k hm h2 =>
      have h'' : s.tstates.get? i = some .panicked := h'
      rw [h] at h''
      simp at h''

/-- C8 witness: instantiation at the concrete step `u3 → u4`, in which the
single worker's job panics. -/
theorem c8_witness :
    jb.panics = true ∧ u4.sender = u3.sender ∧ u4.queue = u3.queue ∧
    u4.main = u3.main ∧ u4.workers = u3.workers ∧ u4.submitted = u3.submitted ∧
    (∀ i0, i0 ≠ 0 → u4.tstates.get? i0 = u3.tstates.get? i0) ∧
    (∀ s2 k t w, s2.main = .dropping k → s2.workers.get? k = some w →
      w.thread = some t → s2.tstates.get? t = some .panicked →
      ∃ s3, Step s2 s3 ∧ s3.main = .panicked) :=
  c8_job_panic_isolated u3 u4 0 jb (Step.panicJob u3 0 jb rfl rfl) rfl rfl

end RustPool
